import Mathlib

/-!
Verification of the rustclaw conversational-memory engine.

This file shallowly embeds the memory subsystem of the repository:

* `src/vector_db.rs`  — the usearch + sqlite `VectorDb` (relational store of
  record, approximate index, dual identity scheme);
* `src/vectordb.rs`   — the older lancedb-backed `VectorDb`;
* `src/memory.rs`     — the `MemoryManager` (recent / long-term text memory);
* `src/embeddings/local.rs` and `src/embeddings/gemini.rs` — the two
  embedding providers.

Machine integers (`i64` timestamps, `usize` sizes) are modelled as `Int` and
`Nat`; the values involved (microsecond timestamps, list lengths) never
approach the overflow range in any property proved here.  Rust `String`s are
modelled as Lean `String`s; Unicode-sensitive primitives (`trim`,
`to_lowercase`) are modelled by the executable character-list functions
`rustTrim` / `rustToLower` (ASCII-level, agreeing with Rust on the ASCII
inputs appearing in every concrete evaluation below), while `str::len`
(UTF-8 byte length) is
modelled exactly by `String.utf8ByteSize`.  Fallible operations are
modelled with `Except`; external effects (the SQL engine, the ANN library,
the inference model) are modelled by universally quantified inputs or
boolean success flags, so every theorem quantifies over all possible
behaviours of the external collaborator.
-/

namespace Rustclaw

/-- Embedding vectors.  No claim computes with the float components, so the
scalar type is abstracted to `Int`; only the identity of vectors matters. -/
abbrev Vec := List Int

/-- Rust `ConversationTurn` from `src/vector_db.rs` (identical struct in
`src/vectordb.rs`): public id, author, the two message texts and the
microsecond timestamp. -/
structure ConversationTurn where
  id : String
  author : String
  user_input : String
  assistant_response : String
  timestamp_micros : Int
deriving DecidableEq, Repr

/-- Rust `ConversationTurn::format_for_context` from `src/vector_db.rs` lines
257-262: `format!("{}: {}\nAssistant: {}", author, user_input,
assistant_response)`. -/
def ConversationTurn.format_for_context (t : ConversationTurn) : String :=
  t.author ++ ": " ++ t.user_input ++ "\nAssistant: " ++ t.assistant_response

/-- The combined passage string built at the top of `VectorDb::add_turn`
(`src/vector_db.rs` lines 79-82, same literal format in `src/vectordb.rs`
lines 124-127): `format!("{}: {}\nAssistant: {}", author, user_input,
assistant_response)`. -/
def add_turn_combined (author user_input assistant_response : String) : String :=
  author ++ ": " ++ user_input ++ "\nAssistant: " ++ assistant_response

/-- Rust `ImportantEntry` from `src/vector_db.rs`. -/
structure ImportantEntry where
  id : String
  content : String
  timestamp_micros : Int
deriving DecidableEq, Repr

/-! Section: Embedding providers (`src/embeddings/local.rs`, `src/embeddings/gemini.rs`) -/

/-- Rust `LocalEmbedding::embed_passage` (`src/embeddings/local.rs` line 62)
prepends the literal `"passage: "` marker before handing the text to the
inference model `m`; the caller passes the raw `text` and receives only the
resulting vector. -/
def local_embed_passage (m : String → Vec) (text : String) : Vec :=
  m ("passage: " ++ text)

/-- Rust `LocalEmbedding::embed_query` (`src/embeddings/local.rs` line 87)
prepends the literal `"query: "` marker. -/
def local_embed_query (m : String → Vec) (text : String) : Vec :=
  m ("query: " ++ text)

/-- The request body built by `GeminiEmbedding::embed`
(`src/embeddings/gemini.rs` lines 43-53): the raw text, the task-type tag
and the output dimensionality. -/
structure GeminiRequest where
  text : String
  taskType : String
  outputDimensionality : Nat
deriving DecidableEq, Repr

/-- Rust `GeminiEmbedding::embed` request construction
(`src/embeddings/gemini.rs` lines 43-53). -/
def gemini_embed_request (dim : Nat) (text taskType : String) : GeminiRequest :=
  ⟨text, taskType, dim⟩

/-- Rust `GeminiEmbedding::embed_passage` (`src/embeddings/gemini.rs` lines 74-76)
tags the request with task type `RETRIEVAL_DOCUMENT`. -/
def gemini_embed_passage_request (dim : Nat) (text : String) : GeminiRequest :=
  gemini_embed_request dim text "RETRIEVAL_DOCUMENT"

/-- Rust `GeminiEmbedding::embed_query` (`src/embeddings/gemini.rs` lines 78-80)
tags the request with task type `RETRIEVAL_QUERY`. -/
def gemini_embed_query_request (dim : Nat) (text : String) : GeminiRequest :=
  gemini_embed_request dim text "RETRIEVAL_QUERY"

/-! Section: Local provider lazy-load / idle-unload lifecycle (`src/embeddings/local.rs`) -/

/-- Lifecycle state of `LocalEmbedding`: whether `model` (the
`Option<TextEmbedding>` behind the mutex) is `Some`, and the `last_used`
instant, modelled as a `Nat` time coordinate. -/
structure LocalEmbState where
  loaded : Bool
  lastUsed : Nat
deriving DecidableEq, Repr

/-- Rust `IDLE_TIMEOUT` from `src/embeddings/local.rs` line 11 (300 seconds). -/
def IDLE_TIMEOUT : Nat := 300

/-- One wake-up of the background loop in `start_unload_timer`
(`src/embeddings/local.rs` lines 36-50) at time `now`: if the elapsed time
since `last_used` is at least `IDLE_TIMEOUT`, the model slot is set to
`None` (a no-op slot write when it already is `None`). -/
def unload_tick (now : Nat) (s : LocalEmbState) : LocalEmbState :=
  if IDLE_TIMEOUT ≤ now - s.lastUsed then { s with loaded := false } else s

/-- Rust `ensure_loaded` (`src/embeddings/local.rs` lines 112-126): under the
model lock, load the model if the slot is `None`; `loadOk` is the success
of `TextEmbedding::try_new`. -/
def ensure_loaded (loadOk : Bool) (s : LocalEmbState) : Except String LocalEmbState :=
  if s.loaded then Except.ok s
  else if loadOk then Except.ok { s with loaded := true }
  else Except.error "Failed to initialize embedding model"

/-- The state transition of one `embed_passage`/`embed_query` call at time
`now` (`src/embeddings/local.rs` lines 66-83 / 91-108): take the model
lock, `ensure_loaded`, then write `last_used := Instant::now()`. -/
def embed_call_step (loadOk : Bool) (now : Nat) (s : LocalEmbState) :
    Except String LocalEmbState :=
  match ensure_loaded loadOk s with
  | Except.error e => Except.error e
  | Except.ok s1 => Except.ok { s1 with lastUsed := now }

/-! Section: Timestamp order on turns -/

/-- Ascending comparison used by `turns.sort_by(|a, b|
a.timestamp_micros.cmp(&b.timestamp_micros))`. -/
def tsLe (a b : ConversationTurn) : Prop :=
  a.timestamp_micros ≤ b.timestamp_micros

/-- Descending comparison used by `turns.sort_by(|a, b|
b.timestamp_micros.cmp(&a.timestamp_micros))` and by the SQL
`ORDER BY timestamp_us DESC`. -/
def tsGe (a b : ConversationTurn) : Prop :=
  b.timestamp_micros ≤ a.timestamp_micros

instance : DecidableRel tsLe := fun a b =>
  inferInstanceAs (Decidable (a.timestamp_micros ≤ b.timestamp_micros))

instance : DecidableRel tsGe := fun a b =>
  inferInstanceAs (Decidable (b.timestamp_micros ≤ a.timestamp_micros))

instance : IsTotal ConversationTurn tsLe :=
  ⟨fun a b => Int.le_total a.timestamp_micros b.timestamp_micros⟩

instance : IsTotal ConversationTurn tsGe :=
  ⟨fun a b => (Int.le_total b.timestamp_micros a.timestamp_micros).symm.symm⟩

instance : IsTrans ConversationTurn tsLe :=
  ⟨fun _ _ _ h1 h2 => le_trans h1 h2⟩

instance : IsTrans ConversationTurn tsGe :=
  ⟨fun _ _ _ h1 h2 => le_trans h2 h1⟩

/-! Section: `recent_turns` -/

/-- Rust `VectorDb::recent_turns` from `src/vector_db.rs` lines 119-134, with the
conversations table contents abstracted as `rows`: the SQL
`ORDER BY timestamp_us DESC LIMIT n` is modelled as a stable descending
sort followed by `take n`, after which the Rust code does
`turns.reverse()`. -/
def recent_turns (n : Nat) (rows : List ConversationTurn) : List ConversationTurn :=
  ((List.insertionSort tsGe rows).take n).reverse

/-- Rust `VectorDb::recent_turns` from `src/vectordb.rs` lines 152-218: collect
every row, `sort_by` descending timestamp, `truncate(n)`, `reverse()`. -/
def recent_turns_lance (n : Nat) (rows : List ConversationTurn) : List ConversationTurn :=
  ((List.insertionSort tsGe rows).take n).reverse

/-! Section: `search_turns` -/

/-- Rust `VectorDb::search_turns` from `src/vector_db.rs` lines 136-177, with the
rows resolved from the ANN result keys abstracted as `rows`: drop rows
whose public id is in `exclude` (`.filter(|t| !exclude.contains(&t.id))`),
sort ascending by timestamp, `truncate(top_k)`. -/
def search_turns (top_k : Nat) (exclude : List String) (rows : List ConversationTurn) :
    List ConversationTurn :=
  (List.insertionSort tsLe (rows.filter (fun t => !(decide (t.id ∈ exclude))))).take top_k

/-- The collection loop of `VectorDb::search_turns` in `src/vectordb.rs`
lines 280-299: walk the fetched rows in order, skip excluded ids
(`continue`), push the row and then break as soon as `turns.len() >= top_k`
(the push happens before the length check). -/
def collect_turns (top_k : Nat) (exclude : List String) :
    List ConversationTurn → List ConversationTurn → List ConversationTurn
  | [], acc => acc
  | r :: rs, acc =>
    if r.id ∈ exclude then collect_turns top_k exclude rs acc
    else
      let acc' := acc ++ [r]
      if top_k ≤ acc'.length then acc' else collect_turns top_k exclude rs acc'

/-- Rust `VectorDb::search_turns` from `src/vectordb.rs` lines 220-303, with the
rows returned by the vector query abstracted as `rows`: run the collection
loop, then `sort_by` ascending timestamp (no final truncation). -/
def search_turns_lance (top_k : Nat) (exclude : List String)
    (rows : List ConversationTurn) : List ConversationTurn :=
  List.insertionSort tsLe (collect_turns top_k exclude rows [])

/-! Section: `add_turn` over the sqlite store and the usearch index
(`src/vector_db.rs` lines 70-117) -/

/-- The column values of a `conversations::ActiveModel` besides the
auto-assigned `rowid` (`src/vector_db.rs` lines 85-92). -/
structure TurnRecord where
  id : String
  author : String
  user_input : String
  assistant_response : String
  timestamp_us : Int
deriving DecidableEq, Repr

/-- The relational store of record: the `conversations` table rows paired
with their auto-increment internal rowids. -/
structure StoreState where
  rows : List (Nat × TurnRecord)
  nextRowid : Nat
deriving DecidableEq, Repr

/-- Rust `conversations::Entity::insert(record).exec(&db)` (`src/vector_db.rs`
line 100): append the row under the next auto-increment identity and
return that identity (`result.last_insert_id`). -/
def store_insert (st : StoreState) (record : TurnRecord) : StoreState × Nat :=
  (⟨st.rows ++ [(st.nextRowid, record)], st.nextRowid + 1⟩, st.nextRowid)

/-- The observable state of the usearch `Index`: its entries (key/vector
pairs in insertion order), its capacity, and how many times `save` has
completed. -/
structure IndexState where
  entries : List (Nat × Vec)
  capacity : Nat
  saves : Nat
deriving DecidableEq, Repr

/-- Rust `Index::size()`. -/
def IndexState.size (idx : IndexState) : Nat := idx.entries.length

/-- Rust `Index::reserve(c)`: set the capacity to `c`. -/
def idx_reserve (c : Nat) (idx : IndexState) : IndexState :=
  { idx with capacity := c }

/-- Rust `Index::add(key, vector)`. -/
def idx_add (key : Nat) (v : Vec) (idx : IndexState) : IndexState :=
  { idx with entries := idx.entries ++ [(key, v)] }

/-- Rust `Index::save(path)`. -/
def idx_save (idx : IndexState) : IndexState :=
  { idx with saves := idx.saves + 1 }

/-- The tail of the `add_turn` blocking closure after the growth check
(`src/vector_db.rs` lines 108-112): `idx.add(rowid, &embedding)?` then
`idx.save(path)?`.  `addOk` and `saveOk` are the success of the two
usearch calls; a failing call leaves the index state as it was at that
point and aborts with the error. -/
def add_turn_index_tail (addOk saveOk : Bool) (rowid : Nat) (emb : Vec)
    (store' : StoreState) (idx : IndexState) :
    StoreState × IndexState × Except String Unit :=
  if addOk = false then (store', idx, Except.error "add failed")
  else
    let idx2 := idx_add rowid emb idx
    if saveOk = false then (store', idx2, Except.error "save failed")
    else (store', idx_save idx2, Except.ok ())

/-- The blocking closure of `VectorDb::add_turn` (`src/vector_db.rs` lines
98-113): insert the row into the store (`storeOk` is the success of the
sqlite insert; on failure the `?` aborts before the index is touched),
take `rowid = result.last_insert_id`, then under the index lock run the
growth check `if idx.size() + 1 >= idx.capacity() {
idx.reserve(idx.capacity() + 1000)? }`, then `add`, then `save`. -/
def add_turn (storeOk reserveOk addOk saveOk : Bool) (record : TurnRecord)
    (emb : Vec) (store : StoreState) (idx : IndexState) :
    StoreState × IndexState × Except String Unit :=
  if storeOk = false then (store, idx, Except.error "insert failed")
  else
    let inserted := store_insert store record
    if idx.size + 1 ≥ idx.capacity then
      if reserveOk = false then (inserted.1, idx, Except.error "reserve failed")
      else add_turn_index_tail addOk saveOk inserted.2 emb inserted.1
        (idx_reserve (idx.capacity + 1000) idx)
    else add_turn_index_tail addOk saveOk inserted.2 emb inserted.1 idx

/-- One `add_turn` call of a call sequence: the outcome flags of the four
external effects plus the record and embedding of the call. -/
structure AddCall where
  storeOk : Bool
  reserveOk : Bool
  addOk : Bool
  saveOk : Bool
  record : TurnRecord
  emb : Vec

/-- A sequence of `add_turn` calls; each call starts from the store/index
state the previous one left behind (failed calls keep whatever partial
state the source retains, e.g. capacity growth). -/
def run_add_turns : List AddCall → StoreState × IndexState → StoreState × IndexState
  | [], s => s
  | c :: cs, s =>
    let r := add_turn c.storeOk c.reserveOk c.addOk c.saveOk c.record c.emb s.1 s.2
    run_add_turns cs (r.1, r.2.1)

/-! Section: `delete_important` -/

/-- Rust `VectorDb::delete_important` from `src/vector_db.rs` lines 216-231,
with the `important` table contents abstracted as `entries`:
`delete_many().filter(Id.eq(id))` removes every row whose public id equals
`id` and reports `rows_affected`; the call returns `Ok(affected > 0)`. -/
def delete_important (id : String) (entries : List ImportantEntry) :
    List ImportantEntry × Bool :=
  let affected := (entries.filter (fun e => decide (e.id = id))).length
  (entries.filter (fun e => !(decide (e.id = id))), decide (0 < affected))

/-- Rust `VectorDb::delete_important` from `src/vectordb.rs` lines 380-386: the
lancedb `table.delete(filter)` removes the matching rows, and the function
then returns `Ok(true)` unconditionally — it never reports `false`. -/
def delete_important_lance (id : String) (entries : List ImportantEntry) :
    List ImportantEntry × Bool :=
  (entries.filter (fun e => !(decide (e.id = id))), true)

/-! Section: `MemoryManager` long-term memory (`src/memory.rs`) -/

/-- Rust `MAX_LONG_TERM_ENTRIES` from `src/memory.rs` line 8. -/
def MAX_LONG_TERM_ENTRIES : Nat := 100

/-- Model of Rust `str::trim`: drop whitespace characters from both ends
(`Char.isWhitespace` covers the ASCII whitespace that appears in every
concrete evaluation below). -/
def rustTrim (s : String) : String :=
  ⟨((s.data.dropWhile Char.isWhitespace).reverse.dropWhile Char.isWhitespace).reverse⟩

/-- Model of Rust `str::to_lowercase`: character-wise lowercasing
(ASCII-level, via `Char.toLower`). -/
def rustToLower (s : String) : String :=
  ⟨s.data.map Char.toLower⟩

/-- Whether `needle` starts `hay` (char-level model of byte-slice equality at the
front; exact for the ASCII data handled concretely below). -/
def leadsWith : List Char → List Char → Bool
  | [], _ => true
  | _ :: _, [] => false
  | a :: as, b :: bs => a == b && leadsWith as bs

/-- Rust `hay.contains(needle)` for Rust `str::contains` with a string pattern:
the needle occurs contiguously somewhere in the haystack. -/
def occursIn (needle : List Char) : List Char → Bool
  | [] => leadsWith needle []
  | c :: cs => leadsWith needle (c :: cs) || occursIn needle cs

/-- Rust `existing.contains(&candidate)` on strings. -/
def substrOf (needle hay : String) : Bool :=
  occursIn needle.data hay.data

/-- Rust `entry.find(']').map(|i| &entry[i + 1..])` on the character list:
everything after the first `']'`, if any. -/
def afterRB : List Char → Option (List Char)
  | [] => none
  | c :: cs => if c = ']' then some cs else afterRB cs

/-- Rust `entry.find(']').map(|i| &entry[i + 1..]).unwrap_or(entry)` from
`src/memory.rs` lines 123-126 (`']'` is a single UTF-8 byte, so the byte
slice `i + 1..` is exactly the character suffix after the first `']'`). -/
def afterFirstRBracket (s : String) : String :=
  match afterRB s.data with
  | some cs => ⟨cs⟩
  | none => s

/-- The normalization applied to an existing entry in `add_to_long_term`
(`src/memory.rs` lines 123-128): strip the `[timestamp]` prefix, `trim`,
`to_lowercase`. -/
def normalize_entry (entry : String) : String :=
  rustToLower (rustTrim (afterFirstRBracket entry))

/-- The duplicate test of `add_to_long_term` (`src/memory.rs` lines
120-135): the candidate is normalized by `trim` + `to_lowercase`; an
existing entry is a duplicate when its normalized content equals the
candidate, or both exceed 10 bytes (`str::len`, modelled by
`utf8ByteSize`) and one contains the other. -/
def isDuplicateIn (long_term : List String) (content : String) : Bool :=
  let c := rustToLower (rustTrim content)
  long_term.any (fun entry =>
    let existing := normalize_entry entry
    existing == c ||
      (decide (10 < existing.utf8ByteSize) && decide (10 < c.utf8ByteSize) &&
        (substrOf c existing || substrOf existing c)))

/-- The duplicate rule as worded in the specification (§4.4): normalize
the candidate and each existing entry's content by trimming and
lowercasing; a duplicate is an exactly equal entry, or one where both
normalized strings exceed 10 bytes in length and one is a substring of the
other. -/
def spec_duplicate (long_term : List String) (content : String) : Prop :=
  ∃ entry ∈ long_term,
    normalize_entry entry = rustToLower (rustTrim content) ∨
      (10 < (normalize_entry entry).utf8ByteSize ∧
        10 < (rustToLower (rustTrim content)).utf8ByteSize ∧
        (substrOf (rustToLower (rustTrim content)) (normalize_entry entry) = true ∨
          substrOf (normalize_entry entry) (rustToLower (rustTrim content)) = true))

/-- Rust `format!("[{}] {}", timestamp, content.trim())` (`src/memory.rs` lines
100 and 142-143). -/
def mk_long_term_entry (ts content : String) : String :=
  "[" ++ ts ++ "] " ++ rustTrim content

/-- Rust `MemoryManager::add_to_long_term` on the `long_term` vector
(`src/memory.rs` lines 117-150): skip silently on a duplicate, else push
the formatted entry and `remove(0)` when the length exceeds
`MAX_LONG_TERM_ENTRIES`. -/
def add_to_long_term (ts content : String) (long_term : List String) : List String :=
  if isDuplicateIn long_term content then long_term
  else
    let lt := long_term ++ [mk_long_term_entry ts content]
    if lt.length > MAX_LONG_TERM_ENTRIES then lt.drop 1 else lt

/-- The `long_term` effect of `MemoryManager::compress_memory`
(`src/memory.rs` lines 93-115): push the summary entry, then drain the
oldest `len - MAX_LONG_TERM_ENTRIES` entries when over the cap. -/
def compress_memory_long_term (ts summary : String) (long_term : List String) :
    List String :=
  let lt := long_term ++ [mk_long_term_entry ts summary]
  if lt.length > MAX_LONG_TERM_ENTRIES then
    lt.drop (lt.length - MAX_LONG_TERM_ENTRIES)
  else lt

/-- The operations of `MemoryManager` that write the `long_term` vector. -/
inductive MemOp where
  | add (ts content : String)
  | compress (ts summary : String)

/-- A sequence of long-term memory operations. -/
def run_mem_ops : List MemOp → List String → List String
  | [], lt => lt
  | MemOp.add ts c :: ops, lt => run_mem_ops ops (add_to_long_term ts c lt)
  | MemOp.compress ts s :: ops, lt => run_mem_ops ops (compress_memory_long_term ts s lt)

end Rustclaw

namespace Rustclaw

/-- C7: the local provider embeds exactly `"passage: " ++ text` on
`embed_passage` and `"query: " ++ text` on `embed_query`; the Gemini
provider tags the request with `RETRIEVAL_DOCUMENT` resp. `RETRIEVAL_QUERY`
while sending the raw text unchanged, so the tagging never reaches the
caller-visible interface (the caller supplies the untagged `text` in each
case). -/
theorem C7_embedding_tagging (m : String → Vec) (text : String) (dim : Nat) :
    local_embed_passage m text = m ("passage: " ++ text) ∧
    local_embed_query m text = m ("query: " ++ text) ∧
    (gemini_embed_passage_request dim text).taskType = "RETRIEVAL_DOCUMENT" ∧
    (gemini_embed_passage_request dim text).text = text ∧
    (gemini_embed_query_request dim text).taskType = "RETRIEVAL_QUERY" ∧
    (gemini_embed_query_request dim text).text = text := by
  refine ⟨rfl, rfl, rfl, rfl, rfl, rfl⟩

/-- C8: the string embedded as a passage by `add_turn` is exactly
`"{author}: {user_input}\nAssistant: {assistant_response}"`, and it
coincides with `format_for_context` of the corresponding retrieved turn
(any id and timestamp). -/
theorem C8_combined_format (author user_input assistant_response id : String)
    (ts : Int) :
    add_turn_combined author user_input assistant_response =
      author ++ ": " ++ user_input ++ "\nAssistant: " ++ assistant_response ∧
    add_turn_combined author user_input assistant_response =
      ConversationTurn.format_for_context
        ⟨id, author, user_input, assistant_response, ts⟩ := by
  refine ⟨rfl, rfl⟩

/-- Shape of `reverse (take n (sort-descending rows))`, the common core of
both `recent_turns` implementations: it has `min n (length rows)`
elements, is chronologically ascending, and consists of timestamp-largest
rows (every row left out has a timestamp at most that of every row kept). -/
theorem recent_shape (n : Nat) (rows : List ConversationTurn) :
    (((List.insertionSort tsGe rows).take n).reverse).length = min n rows.length ∧
    List.Sorted tsLe (((List.insertionSort tsGe rows).take n).reverse) ∧
    ∃ rest, rows.Perm ((((List.insertionSort tsGe rows).take n).reverse) ++ rest) ∧
      ∀ u ∈ rest, ∀ t ∈ ((List.insertionSort tsGe rows).take n).reverse,
        u.timestamp_micros ≤ t.timestamp_micros := by
  have hsorted : List.Sorted tsGe (List.insertionSort tsGe rows) :=
    List.sorted_insertionSort tsGe rows
  have hperm : (List.insertionSort tsGe rows).Perm rows :=
    List.perm_insertionSort tsGe rows
  refine ⟨?_, ?_, ?_⟩
  · rw [List.length_reverse, List.length_take, hperm.length_eq]
  · have h1 : List.Pairwise tsGe ((List.insertionSort tsGe rows).take n) :=
      List.Pairwise.sublist (List.take_sublist n _) hsorted
    exact List.pairwise_reverse.mpr h1
  · refine ⟨(List.insertionSort tsGe rows).drop n, ?_, ?_⟩
    · have hrev : (((List.insertionSort tsGe rows).take n).reverse ++
            (List.insertionSort tsGe rows).drop n).Perm
          ((List.insertionSort tsGe rows).take n ++
            (List.insertionSort tsGe rows).drop n) :=
        List.Perm.append_right _ (List.reverse_perm _)
      rw [List.take_append_drop] at hrev
      exact (hrev.trans hperm).symm
    · intro u hu t ht
      have ht' : t ∈ (List.insertionSort tsGe rows).take n := List.mem_reverse.mp ht
      have hpw : List.Pairwise tsGe ((List.insertionSort tsGe rows).take n ++
          (List.insertionSort tsGe rows).drop n) := by
        rw [List.take_append_drop]; exact hsorted
      exact (List.pairwise_append.mp hpw).2.2 t ht' u hu

/-- C3: for every `n` and every table contents, `recent_turns n` returns
exactly `min n total` turns, sorted chronologically ascending, and they
are the timestamp-largest turns (the remaining rows all have timestamps at
most those of every returned turn); the lancedb implementation computes
the identical function. -/
theorem C3_recent_turns (n : Nat) (rows : List ConversationTurn) :
    (recent_turns n rows).length = min n rows.length ∧
    List.Sorted tsLe (recent_turns n rows) ∧
    (∃ rest, rows.Perm (recent_turns n rows ++ rest) ∧
      ∀ u ∈ rest, ∀ t ∈ recent_turns n rows,
        u.timestamp_micros ≤ t.timestamp_micros) ∧
    recent_turns_lance n rows = recent_turns n rows := by
  obtain ⟨h1, h2, h3⟩ := recent_shape n rows
  exact ⟨h1, h2, h3, rfl⟩

/-- Every turn produced by the lancedb collection loop either was in the
accumulator already or is a fetched row whose id is not excluded. -/
theorem collect_turns_mem (k : Nat) (ex : List String) :
    ∀ rs acc t, t ∈ collect_turns k ex rs acc → t ∈ acc ∨ (t ∈ rs ∧ t.id ∉ ex) := by
  intro rs
  induction rs with
  | nil => intro acc t ht; exact Or.inl ht
  | cons r rs ih =>
    intro acc t ht
    simp only [collect_turns] at ht
    split at ht
    · rcases ih acc t ht with h | h
      · exact Or.inl h
      · exact Or.inr ⟨List.mem_cons_of_mem r h.1, h.2⟩
    · rename_i hr
      split at ht
      · rcases List.mem_append.mp ht with h | h
        · exact Or.inl h
        · have he : t = r := List.mem_singleton.mp h
          exact Or.inr ⟨he ▸ List.mem_cons_self r rs, he ▸ hr⟩
      · rcases ih (acc ++ [r]) t ht with h | h
        · rcases List.mem_append.mp h with h' | h'
          · exact Or.inl h'
          · have he : t = r := List.mem_singleton.mp h'
            exact Or.inr ⟨he ▸ List.mem_cons_self r rs, he ▸ hr⟩
        · exact Or.inr ⟨List.mem_cons_of_mem r h.1, h.2⟩

/-- When the accumulator is strictly below `k`, the lancedb collection
loop never produces more than `k` turns (the push-then-check loop stops as
soon as the length reaches `k`). -/
theorem collect_turns_length (k : Nat) (ex : List String) :
    ∀ rs acc, acc.length < k → (collect_turns k ex rs acc).length ≤ k := by
  intro rs
  induction rs with
  | nil => intro acc h; exact Nat.le_of_lt h
  | cons r rs ih =>
    intro acc h
    simp only [collect_turns]
    split
    · exact ih acc h
    · split
      · rename_i hlen
        rw [List.length_append]
        simpa using h
      · rename_i hlen
        refine ih (acc ++ [r]) ?_
        omega

/-- C1 counterexample: `src/vectordb.rs`'s `search_turns` pushes a fetched
row before its length check, so with `top_k = 0` it returns one turn — more
than `top_k` — refuting the claim as stated for that implementation. -/
theorem C1_counterexample :
    (search_turns_lance 0 ["a"] [⟨"b", "A", "u", "r", 0⟩]).length = 1 ∧
    ¬ (search_turns_lance 0 ["a"] [⟨"b", "A", "u", "r", 0⟩]).length ≤ 0 := by
  constructor <;> decide

/-- C1 (amended): for every query resolution, `top_k` and excluded-id
list, the sqlite/usearch `search_turns` returns at most `top_k` turns,
none excluded, sorted chronologically ascending; the lancedb variant
satisfies the same exclusion and ordering properties, and its result is
bounded by `top_k` whenever `top_k ≥ 1` (at `top_k = 0` one turn may be
returned, per the counterexample). -/
theorem C1_search_turns_amended (top_k : Nat) (exclude : List String)
    (rows : List ConversationTurn) :
    (search_turns top_k exclude rows).length ≤ top_k ∧
    (∀ t ∈ search_turns top_k exclude rows, t.id ∉ exclude) ∧
    List.Sorted tsLe (search_turns top_k exclude rows) ∧
    (1 ≤ top_k → (search_turns_lance top_k exclude rows).length ≤ top_k) ∧
    (∀ t ∈ search_turns_lance top_k exclude rows, t.id ∉ exclude) ∧
    List.Sorted tsLe (search_turns_lance top_k exclude rows) := by
  refine ⟨?_, ?_, ?_, ?_, ?_, ?_⟩
  · exact List.length_take_le top_k _
  · intro t ht
    have h1 : t ∈ List.insertionSort tsLe
        (rows.filter (fun t => !(decide (t.id ∈ exclude)))) :=
      List.mem_of_mem_take ht
    have h2 : t ∈ rows.filter (fun t => !(decide (t.id ∈ exclude))) :=
      ((List.perm_insertionSort tsLe _).mem_iff).mp h1
    have h3 := (List.mem_filter.mp h2).2
    simpa using h3
  · exact List.Pairwise.sublist (List.take_sublist _ _)
      (List.sorted_insertionSort tsLe _)
  · intro hk
    have hlen := collect_turns_length top_k exclude rows [] (by simpa using hk)
    calc (search_turns_lance top_k exclude rows).length
        = (collect_turns top_k exclude rows []).length :=
          (List.perm_insertionSort tsLe _).length_eq
      _ ≤ top_k := hlen
  · intro t ht
    have h1 : t ∈ collect_turns top_k exclude rows [] :=
      ((List.perm_insertionSort tsLe _).mem_iff).mp ht
    rcases collect_turns_mem top_k exclude rows [] t h1 with h | h
    · simp at h
    · exact h.2
  · exact List.sorted_insertionSort tsLe _

/-- Witness for the amended C1 at a concrete input: with `top_k = 2 ≥ 1`
the lancedb variant also respects the bound. -/
theorem C1_search_turns_amended_witness :
    1 ≤ 2 ∧
    (search_turns_lance 2 ["a"] [⟨"b", "A", "u", "r", 0⟩]).length ≤ 2 :=
  ⟨by decide,
    (C1_search_turns_amended 2 ["a"] [⟨"b", "A", "u", "r", 0⟩]).2.2.2.1 (by decide)⟩

/-- C2: in `add_turn`, a failing store insert returns the error with the
store and the index both exactly as before (no reserve, add or save
happens); on a successful store insert the store always ends up holding
the new row, and the only index entry that can be added is keyed by the
identity that the store insert generated (paired with the passage
embedding). -/
theorem C2_add_turn_store_first (reserveOk addOk saveOk : Bool)
    (record : TurnRecord) (emb : Vec) (store : StoreState) (idx : IndexState) :
    add_turn false reserveOk addOk saveOk record emb store idx
      = (store, idx, Except.error "insert failed") ∧
    (add_turn true reserveOk addOk saveOk record emb store idx).1
      = (store_insert store record).1 ∧
    ((add_turn true reserveOk addOk saveOk record emb store idx).2.1.entries
        = idx.entries ∨
      (add_turn true reserveOk addOk saveOk record emb store idx).2.1.entries
        = idx.entries ++ [((store_insert store record).2, emb)]) := by
  refine ⟨rfl, ?_, ?_⟩ <;>
    by_cases hcap : idx.size + 1 ≥ idx.capacity <;>
      cases reserveOk <;> cases addOk <;> cases saveOk <;>
        simp [add_turn, add_turn_index_tail, idx_reserve, idx_add, idx_save,
          store_insert, hcap]

/-- Capacity of the index never shrinks across one `add_turn` call,
whatever the outcome of the store insert and the three index calls. -/
theorem add_turn_capacity_mono (storeOk reserveOk addOk saveOk : Bool)
    (record : TurnRecord) (emb : Vec) (store : StoreState) (idx : IndexState) :
    idx.capacity ≤
      (add_turn storeOk reserveOk addOk saveOk record emb store idx).2.1.capacity := by
  cases storeOk <;> by_cases hcap : idx.size + 1 ≥ idx.capacity <;>
    cases reserveOk <;> cases addOk <;> cases saveOk <;>
      simp [add_turn, add_turn_index_tail, idx_reserve, idx_add, idx_save, hcap] <;>
        omega

/-- One `add_turn` call preserves `size ≤ capacity`: the growth check runs
before the insert, so the insert never pushes the size past the
capacity. -/
theorem add_turn_size_le (storeOk reserveOk addOk saveOk : Bool)
    (record : TurnRecord) (emb : Vec) (store : StoreState) (idx : IndexState)
    (h : idx.size ≤ idx.capacity) :
    (add_turn storeOk reserveOk addOk saveOk record emb store idx).2.1.size ≤
      (add_turn storeOk reserveOk addOk saveOk record emb store idx).2.1.capacity := by
  have h' : idx.entries.length ≤ idx.capacity := h
  cases storeOk <;> cases reserveOk <;> cases addOk <;> cases saveOk <;>
    by_cases hcap : idx.capacity ≤ idx.entries.length + 1 <;>
      · simp [add_turn, add_turn_index_tail, idx_reserve, idx_add, idx_save,
          IndexState.size, ge_iff_le, hcap]
        try omega

/-- Any sequence of `add_turn` calls keeps `size ≤ capacity` and never
shrinks the capacity. -/
theorem run_add_turns_invariant (calls : List AddCall) :
    ∀ store idx, IndexState.size idx ≤ idx.capacity →
      (run_add_turns calls (store, idx)).2.size ≤
          (run_add_turns calls (store, idx)).2.capacity ∧
        idx.capacity ≤ (run_add_turns calls (store, idx)).2.capacity := by
  induction calls with
  | nil => intro store idx h; exact ⟨h, le_refl _⟩
  | cons c cs ih =>
    intro store idx h
    simp only [run_add_turns]
    have h1 := add_turn_size_le c.storeOk c.reserveOk c.addOk c.saveOk
      c.record c.emb store idx h
    have h2 := add_turn_capacity_mono c.storeOk c.reserveOk c.addOk c.saveOk
      c.record c.emb store idx
    obtain ⟨ha, hb⟩ := ih
      (add_turn c.storeOk c.reserveOk c.addOk c.saveOk c.record c.emb store idx).1
      (add_turn c.storeOk c.reserveOk c.addOk c.saveOk c.record c.emb store idx).2.1
      h1
    exact ⟨ha, le_trans h2 hb⟩

/-- C4: the growth check of `add_turn` runs before every insert — when the
size is within one slot of the capacity the capacity becomes exactly the
old capacity plus the fixed increment 1000 (and is untouched otherwise);
consequently, starting from any state satisfying `size ≤ capacity`, the
index's size never exceeds its capacity and the capacity never shrinks,
across a single call and across any sequence of `add_turn` calls. -/
theorem C4_capacity_growth (addOk saveOk : Bool) (record : TurnRecord)
    (emb : Vec) (store : StoreState) (idx : IndexState) (calls : List AddCall)
    (hinv : IndexState.size idx ≤ idx.capacity) :
    (idx.capacity ≤ idx.size + 1 →
      (add_turn true true addOk saveOk record emb store idx).2.1.capacity
        = idx.capacity + 1000) ∧
    (idx.size + 1 < idx.capacity →
      (add_turn true true addOk saveOk record emb store idx).2.1.capacity
        = idx.capacity) ∧
    (∀ sOk rOk aOk vOk : Bool,
      (add_turn sOk rOk aOk vOk record emb store idx).2.1.size ≤
        (add_turn sOk rOk aOk vOk record emb store idx).2.1.capacity) ∧
    (∀ sOk rOk aOk vOk : Bool,
      idx.capacity ≤ (add_turn sOk rOk aOk vOk record emb store idx).2.1.capacity) ∧
    (run_add_turns calls (store, idx)).2.size ≤
        (run_add_turns calls (store, idx)).2.capacity ∧
    idx.capacity ≤ (run_add_turns calls (store, idx)).2.capacity := by
  obtain ⟨hrun1, hrun2⟩ := run_add_turns_invariant calls store idx hinv
  refine ⟨?_, ?_,
    fun sOk rOk aOk vOk => add_turn_size_le sOk rOk aOk vOk record emb store idx hinv,
    fun sOk rOk aOk vOk => add_turn_capacity_mono sOk rOk aOk vOk record emb store idx,
    hrun1, hrun2⟩
  · intro hcap
    have hcap' : idx.size + 1 ≥ idx.capacity := hcap
    cases addOk <;> cases saveOk <;>
      simp [add_turn, add_turn_index_tail, idx_reserve, idx_add, idx_save, hcap']
  · intro hlt
    have hcap' : ¬ (idx.size + 1 ≥ idx.capacity) := by omega
    cases addOk <;> cases saveOk <;>
      simp [add_turn, add_turn_index_tail, idx_reserve, idx_add, idx_save, hcap']

/-- Witness for C4 at a concrete input: the freshly reserved empty index
(capacity 1000, as created by `VectorDb::new`) satisfies the hypothesis,
and one fully successful `add_turn` keeps `size ≤ capacity`. -/
theorem C4_capacity_growth_witness :
    IndexState.size ⟨[], 1000, 0⟩ ≤ 1000 ∧
    (run_add_turns [⟨true, true, true, true, ⟨"i", "a", "u", "r", 0⟩, []⟩]
        (⟨[], 1⟩, ⟨[], 1000, 0⟩)).2.size ≤
      (run_add_turns [⟨true, true, true, true, ⟨"i", "a", "u", "r", 0⟩, []⟩]
        (⟨[], 1⟩, ⟨[], 1000, 0⟩)).2.capacity :=
  ⟨by decide,
    (C4_capacity_growth true true ⟨"i", "a", "u", "r", 0⟩ [] ⟨[], 1⟩ ⟨[], 1000, 0⟩
      [⟨true, true, true, true, ⟨"i", "a", "u", "r", 0⟩, []⟩]
      (by decide)).2.2.2.2.1⟩

/-- C5 counterexample: the lancedb `delete_important`
(`src/vectordb.rs` lines 380-386) returns `Ok(true)` even when no
important entry with the given public id exists — the table is empty here —
refuting the claim as stated for that implementation. -/
theorem C5_counterexample :
    (delete_important_lance "x" []).2 = true ∧
    ¬ ∃ e ∈ ([] : List ImportantEntry), e.id = "x" := by
  exact ⟨rfl, by simp⟩

/-- C5 (amended): the sqlite/usearch `delete_important` returns `Ok(true)`
exactly when an important entry with the given public id existed (and
removes every such entry), and `Ok(false)` — not an error — exactly when
none existed; the lancedb variant instead returns `Ok(true)`
unconditionally. -/
theorem C5_delete_important_amended (id : String) (entries : List ImportantEntry) :
    ((delete_important id entries).2 = true ↔ ∃ e ∈ entries, e.id = id) ∧
    ((delete_important id entries).2 = false ↔ ∀ e ∈ entries, e.id ≠ id) ∧
    (∀ e ∈ (delete_important id entries).1, e.id ≠ id) ∧
    (delete_important_lance id entries).2 = true := by
  have key : (delete_important id entries).2 = true ↔ ∃ e ∈ entries, e.id = id := by
    simp only [delete_important, decide_eq_true_iff]
    constructor
    · intro h4
      obtain ⟨x, hx⟩ := List.exists_mem_of_ne_nil _ (List.length_pos.mp h4)
      have hx' := List.mem_filter.mp hx
      exact ⟨x, hx'.1, of_decide_eq_true hx'.2⟩
    · rintro ⟨e, he, heq⟩
      exact List.length_pos.mpr
        (List.ne_nil_of_mem (List.mem_filter.mpr ⟨he, decide_eq_true heq⟩))
  refine ⟨key, ?_, ?_, rfl⟩
  · rw [Bool.eq_false_iff, Ne, key]
    simp
  · intro e he
    have := (List.mem_filter.mp he).2
    simpa using this

/-- Witness for the amended C5 at a concrete input: deleting an id that is
present returns `true`. -/
theorem C5_delete_important_amended_witness :
    (delete_important "x" [⟨"x", "c", 0⟩]).2 = true :=
  (C5_delete_important_amended "x" [⟨"x", "c", 0⟩]).1.mpr
    ⟨⟨"x", "c", 0⟩, by simp, rfl⟩

/-- Witness instantiation for C3 at a concrete input: one turn is returned
out of two stored when `n = 1`. -/
theorem C3_recent_turns_witness :
    (recent_turns 1 [⟨"a", "A", "u", "r", 1⟩, ⟨"b", "B", "v", "s", 2⟩]).length = 1 := by
  have h := (C3_recent_turns 1 [⟨"a", "A", "u", "r", 1⟩, ⟨"b", "B", "v", "s", 2⟩]).1
  simpa using h

/-- C9: the unload loop sets the model slot to unloaded only when it was
already unloaded or the elapsed time since `last_used` is at least the
300-second idle threshold (and always does so in the latter case); and an
embed call that starts with the model unloaded loads it under the model
lock and succeeds whenever loading succeeds, leaving the model loaded and
`last_used` refreshed — so the call right after an idle unload succeeds. -/
theorem C9_idle_unload (now : Nat) (s : LocalEmbState) (loadOk : Bool) :
    ((unload_tick now s).loaded = false →
      s.loaded = false ∨ IDLE_TIMEOUT ≤ now - s.lastUsed) ∧
    (IDLE_TIMEOUT ≤ now - s.lastUsed → (unload_tick now s).loaded = false) ∧
    (s.loaded = false → loadOk = true →
      embed_call_step loadOk now s = Except.ok ⟨true, now⟩) := by
  refine ⟨?_, ?_, ?_⟩
  · intro h
    by_cases hc : IDLE_TIMEOUT ≤ now - s.lastUsed
    · exact Or.inr hc
    · exact Or.inl (by simpa [unload_tick, hc] using h)
  · intro h
    simp [unload_tick, h]
  · intro h1 h2
    simp [embed_call_step, ensure_loaded, h1, h2]

/-- Witness for C9 at a concrete input: with the model unloaded (as after
an idle unload) and loading succeeding, the embed call at time 400
succeeds and reloads. -/
theorem C9_idle_unload_witness :
    (⟨false, 0⟩ : LocalEmbState).loaded = false ∧
    embed_call_step true 400 ⟨false, 0⟩ = Except.ok ⟨true, 400⟩ :=
  ⟨rfl, (C9_idle_unload 400 ⟨false, 0⟩ true).2.2 rfl rfl⟩

/-- Scanning a character list with no `']'` followed by `']' :: rest`
finds exactly `rest`. -/
theorem afterRB_append (l rest : List Char) (h : ∀ c ∈ l, c ≠ ']') :
    afterRB (l ++ ']' :: rest) = some rest := by
  induction l with
  | nil => simp [afterRB]
  | cons c cs ih =>
    have hc : c ≠ ']' := h c (List.mem_cons_self c cs)
    simp only [List.cons_append, afterRB, if_neg hc]
    exact ih (fun x hx => h x (List.mem_cons_of_mem c hx))

/-- Normalizing a freshly formatted `"[ts] X"` entry yields `"x"`, provided
the timestamp itself contains no `']'`. -/
theorem normalize_entry_mk (t1 : String) (h : ∀ c ∈ t1.data, c ≠ ']') :
    normalize_entry (mk_long_term_entry t1 "X") = "x" := by
  have hdata : (mk_long_term_entry t1 "X").data
      = '[' :: (t1.data ++ (']' :: ' ' :: 'X' :: [])) := by
    show ("[" ++ t1 ++ "] " ++ rustTrim "X").data = _
    have hX : rustTrim "X" = "X" := by decide
    rw [hX]
    simp [String.data_append]
  have hrb : afterRB (mk_long_term_entry t1 "X").data = some [' ', 'X'] := by
    rw [hdata]
    have : ('[' : Char) ≠ ']' := by decide
    simp only [afterRB, if_neg this]
    exact afterRB_append t1.data [' ', 'X'] h
  have hafter : afterFirstRBracket (mk_long_term_entry t1 "X") = " X" := by
    unfold afterFirstRBracket
    rw [hrb]
  unfold normalize_entry
  rw [hafter]
  decide

/-- C6: the duplicate test of `add_to_long_term` agrees exactly with the
spec's normalize/equality-or-mutual-substring rule; a duplicate skips the
insert (the long-term list is returned unchanged); and consequently adding
`"X"` and then its case variant `"x"` to an empty long-term memory stores
exactly one entry (for any timestamp strings not containing `']'`). -/
theorem C6_long_term_dedup :
    (∀ lt c, isDuplicateIn lt c = true ↔ spec_duplicate lt c) ∧
    (∀ ts c lt, isDuplicateIn lt c = true → add_to_long_term ts c lt = lt) ∧
    (∀ t1 t2 : String, (∀ ch ∈ t1.data, ch ≠ ']') →
      (add_to_long_term t2 "x" (add_to_long_term t1 "X" [])).length = 1) := by
  refine ⟨?_, ?_, ?_⟩
  · intro lt c
    simp [isDuplicateIn, spec_duplicate, List.any_eq_true, Bool.or_eq_true,
      Bool.and_eq_true, decide_eq_true_iff, beq_iff_eq, and_assoc]
  · intro ts c lt h
    simp [add_to_long_term, h]
  · intro t1 t2 h
    have h1 : add_to_long_term t1 "X" [] = [mk_long_term_entry t1 "X"] := by
      simp [add_to_long_term, isDuplicateIn, MAX_LONG_TERM_ENTRIES]
    have h2 : isDuplicateIn [mk_long_term_entry t1 "X"] "x" = true := by
      simp only [isDuplicateIn, List.any_cons, List.any_nil, Bool.or_false]
      rw [normalize_entry_mk t1 h]
      decide
    rw [h1, add_to_long_term, if_pos h2]
    rfl

/-- Witness for C6 at a concrete timestamp (the `%Y-%m-%d %H:%M` format
never contains `']'`): the case-variant double insert stores one entry. -/
theorem C6_long_term_dedup_witness :
    (∀ ch ∈ ("2024-01-01 10:00" : String).data, ch ≠ ']') ∧
    (add_to_long_term "2024-01-01 10:05" "x"
      (add_to_long_term "2024-01-01 10:00" "X" [])).length = 1 :=
  ⟨by decide,
    C6_long_term_dedup.2.2 "2024-01-01 10:00" "2024-01-01 10:05" (by decide)⟩

/-- C10: `compress_memory` always leaves at most `MAX_LONG_TERM_ENTRIES`
(100) long-term entries; `add_to_long_term` preserves the cap; hence any
sequence of long-term operations starting at or below the cap stays at or
below it. -/
theorem C10_long_term_cap :
    (∀ ts s lt, (compress_memory_long_term ts s lt).length ≤ MAX_LONG_TERM_ENTRIES) ∧
    (∀ ts c lt, lt.length ≤ MAX_LONG_TERM_ENTRIES →
      (add_to_long_term ts c lt).length ≤ MAX_LONG_TERM_ENTRIES) ∧
    (∀ ops lt, lt.length ≤ MAX_LONG_TERM_ENTRIES →
      (run_mem_ops ops lt).length ≤ MAX_LONG_TERM_ENTRIES) := by
  have hcomp : ∀ ts s lt,
      (compress_memory_long_term ts s lt).length ≤ MAX_LONG_TERM_ENTRIES := by
    intro ts s lt
    simp only [compress_memory_long_term, MAX_LONG_TERM_ENTRIES, List.length_append,
      List.length_cons, List.length_nil, gt_iff_lt]
    split <;> simp_all [List.length_drop] <;> omega
  have hadd : ∀ ts c lt, lt.length ≤ MAX_LONG_TERM_ENTRIES →
      (add_to_long_term ts c lt).length ≤ MAX_LONG_TERM_ENTRIES := by
    intro ts c lt h
    simp only [MAX_LONG_TERM_ENTRIES] at h ⊢
    simp only [add_to_long_term, MAX_LONG_TERM_ENTRIES, gt_iff_lt]
    split
    · exact h
    · split <;> simp_all [List.length_drop] <;> omega
  refine ⟨hcomp, hadd, ?_⟩
  intro ops
  induction ops with
  | nil => intro lt h; exact h
  | cons op ops ih =>
    intro lt h
    cases op with
    | add ts c => exact ih _ (hadd ts c lt h)
    | compress ts s => exact ih _ (hcomp ts s lt)

/-- Witness for C10 at a concrete input: one add on the empty long-term
memory stays within the cap. -/
theorem C10_long_term_cap_witness :
    ([] : List String).length ≤ MAX_LONG_TERM_ENTRIES ∧
    (run_mem_ops [MemOp.add "t" "hello"] []).length ≤ MAX_LONG_TERM_ENTRIES :=
  ⟨by decide, C10_long_term_cap.2.2 [MemOp.add "t" "hello"] [] (by decide)⟩

end Rustclaw
